import Mathlib

/-!
Shallow embedding of the FRAPalyzer analysis pipeline
(`frapalyzer/frapalyzer.py`) over exact rational arithmetic.

Conventions of the embedding:
* python / numpy floats are modelled as `ℚ` (exact arithmetic);
* `NaN` entries of a masked image are modelled as `none : Option ℚ`;
* a frame stack (`t`, `y`, `x`) is a `List (List (List (Option ℚ)))`;
* numpy `round` (round half to even) is `roundHalfEven`;
* python slicing `xs[a:b]` on an axis of length `n` is `pySliceIdx n a b`,
  the list of selected indices;
* raised exceptions are modelled with `Except`.
-/

namespace Frapalyzer

/-- Rounding used by `np.round`: round half to even (banker's rounding). -/
def roundHalfEven (q : ℚ) : ℤ :=
  if q - ⌊q⌋ < 1/2 then ⌊q⌋
  else if 1/2 < q - ⌊q⌋ then ⌊q⌋ + 1
  else if ⌊q⌋ % 2 = 0 then ⌊q⌋ else ⌊q⌋ + 1

/-- `FRAPalyzer._to_pixel`: `np.round(np.divide(micron, micron_per_pixel)).astype(np.int)`.
The `astype` is the identity on the already integral rounded value. -/
def _to_pixel (mpp micron : ℚ) : ℤ := roundHalfEven (micron / mpp)

/-- Python slice semantics `xs[a:b]` (step 1) on an axis of length `n`:
a negative bound counts from the end, then both bounds are clamped to
`[0, n]`; the result is the list of selected indices, in order. -/
def pySliceIdx (n : ℕ) (a b : ℤ) : List ℕ :=
  let a' : ℕ := (if a < 0 then max (a + n) 0 else min a n).toNat
  let b' : ℕ := (if b < 0 then max (b + n) 0 else min b n).toNat
  (List.range (b' - a')).map (fun k => a' + k)

/-- Shape field of an ROI. The nd2 metadata stores strings; we model the two
supported values as constructors and any other string as `unsupported`
(carrying an arbitrary code so that unsupported values stay distinguishable). -/
inductive RoiShape
  | circle
  | rectangle
  | unsupported (code : ℕ)
deriving DecidableEq

/-- An ROI as read from the file metadata. `shape = none` models a roi
dictionary with no shape key. `positions` is the first positions row
`(x, y)` and `sizes` the first sizes row `(sx, sy)`, both in microns. -/
structure Roi where
  shape : Option RoiShape
  positions : ℚ × ℚ
  sizes : ℚ × ℚ
deriving DecidableEq

/-- A row of a masked image: `none` entries are NaN pixels. -/
abbrev MRow := List (Option ℚ)

/-- One masked frame (rows of pixels). -/
abbrev MFrame := List MRow

/-- A masked frame stack, axes `(t, y, x)`. -/
abbrev Stack := List MFrame

/-- The part of the ND2 file state the analyzer reads: per-frame pixel data
(total functions `row → col → value`, valid on `[0,height) × [0,width)`),
the pixel scale and the background ROI found in the metadata. -/
structure NDFile where
  frames : List (ℕ → ℕ → ℚ)
  height : ℕ
  width : ℕ
  micron_per_pixel : ℚ
  background_roi : Option Roi

/-- The rectangle coordinates `(left, right, bottom, top)` computed by
`_get_rectangular_slice_from_roi` (line 212):
`np.round(positions[0,0:2] repeated twice + sizes[0,0:2] repeated twice * [-0.5, 0.5, -0.5, 0.5])`.
Note that the micron values are rounded directly, without `_to_pixel`. -/
def rectCoordinates (roi : Roi) : ℤ × ℤ × ℤ × ℤ :=
  (roundHalfEven (roi.positions.1 + roi.sizes.1 * (-(1/2))),
   roundHalfEven (roi.positions.1 + roi.sizes.1 * (1/2)),
   roundHalfEven (roi.positions.2 + roi.sizes.2 * (-(1/2))),
   roundHalfEven (roi.positions.2 + roi.sizes.2 * (1/2)))

/-- Rectangle coordinates as the spec describes them: the micron bounds
`center ± size/2` are converted to pixels through the PixelGeometry contract
`round(micron / micronsPerPixel)` (`_to_pixel`). Written from the spec text,
for comparison with `rectCoordinates`. -/
def rectCoordinates_spec (mpp : ℚ) (roi : Roi) : ℤ × ℤ × ℤ × ℤ :=
  (_to_pixel mpp (roi.positions.1 - roi.sizes.1 / 2),
   _to_pixel mpp (roi.positions.1 + roi.sizes.1 / 2),
   _to_pixel mpp (roi.positions.2 - roi.sizes.2 / 2),
   _to_pixel mpp (roi.positions.2 + roi.sizes.2 / 2))

/-- `FRAPalyzer._get_rect_from_images`: for every frame `t`, extract
`image[bottom:top, left:right]`; all extracted pixels are real values. -/
def _get_rect_from_images (f : NDFile) (left right bottom top : ℤ) : Stack :=
  f.frames.map (fun frame =>
    (pySliceIdx f.height bottom top).map (fun i =>
      (pySliceIdx f.width left right).map (fun j => some (frame i j))))

/-- `FRAPalyzer._get_rectangular_slice_from_roi`. -/
def _get_rectangular_slice_from_roi (f : NDFile) (roi : Roi) : Stack :=
  let c := rectCoordinates roi
  _get_rect_from_images f c.1 c.2.1 c.2.2.1 c.2.2.2

/-- Pixel center and radius of a circular ROI, converted by `_to_pixel`
(lines 194-195): `(cx, cy, radius)`. -/
def circleParams (mpp : ℚ) (roi : Roi) : ℤ × ℤ × ℤ :=
  (_to_pixel mpp roi.positions.1, _to_pixel mpp roi.positions.2,
   _to_pixel mpp roi.sizes.1)

/-- The masking step of `_get_circular_slice_from_roi` (lines 200-202):
meshgrid local coordinates over the extracted rectangle, pixels with
`(x - radius)^2 + (y - radius)^2 > radius^2` are set to NaN. -/
def maskCircleFrame (r : ℤ) (frame : MFrame) : MFrame :=
  (List.range frame.length).map (fun (i : ℕ) =>
    let row := frame.getD i []
    (List.range row.length).map (fun (j : ℕ) =>
      if ((i : ℤ) - r) ^ 2 + ((j : ℤ) - r) ^ 2 > r ^ 2 then none
      else row.getD j none))

/-- `FRAPalyzer._get_circular_slice_from_roi`: bounding box
`[cx - r, cx + r] x [cy - r, cy + r]` as a python slice, then the circular
mask. -/
def _get_circular_slice_from_roi (f : NDFile) (roi : Roi) : Stack :=
  let p := circleParams f.micron_per_pixel roi
  (_get_rect_from_images f (p.1 - p.2.2) (p.1 + p.2.2) (p.2.1 - p.2.2) (p.2.1 + p.2.2)).map
    (maskCircleFrame p.2.2)

/-- The set of (row, col) pixel coordinates of the full image that
`_get_rectangular_slice_from_roi` samples (all of them valid). -/
def rectFootprint (roi : Roi) (H W : ℕ) : List (ℕ × ℕ) :=
  let c := rectCoordinates roi
  ((pySliceIdx H c.2.2.1 c.2.2.2).map (fun i =>
    (pySliceIdx W c.1 c.2.1).map (fun j => (i, j)))).flatten

/-- The spec version of the rectangle footprint, built from
`rectCoordinates_spec`. -/
def rectFootprint_spec (mpp : ℚ) (roi : Roi) (H W : ℕ) : List (ℕ × ℕ) :=
  let c := rectCoordinates_spec mpp roi
  ((pySliceIdx H c.2.2.1 c.2.2.2).map (fun i =>
    (pySliceIdx W c.1 c.2.1).map (fun j => (i, j)))).flatten

/-- The set of (row, col) pixel coordinates of the full image that
`_get_circular_slice_from_roi` samples as valid (inside the bounding box
slice and not masked): mirrors the rows/cols selection and the meshgrid
mask of the source. -/
def circleFootprint (mpp : ℚ) (roi : Roi) (H W : ℕ) : List (ℕ × ℕ) :=
  let p := circleParams mpp roi
  let rows := pySliceIdx H (p.2.1 - p.2.2) (p.2.1 + p.2.2)
  let cols := pySliceIdx W (p.1 - p.2.2) (p.1 + p.2.2)
  ((List.range rows.length).map (fun (i : ℕ) =>
    (List.range cols.length).filterMap (fun (j : ℕ) =>
      if ((i : ℤ) - p.2.2) ^ 2 + ((j : ℤ) - p.2.2) ^ 2 > p.2.2 ^ 2 then none
      else some (rows.getD i 0, cols.getD j 0)))).flatten

/-- Valid (non-NaN) values of a masked row, in order. -/
def rowVals (r : MRow) : List ℚ := r.filterMap id

/-- Valid values of a masked frame, in order. -/
def frameVals (fr : MFrame) : List ℚ := (fr.map rowVals).flatten

/-- Valid values of a whole stack, in order. -/
def stackVals (s : Stack) : List ℚ := (s.flatten.flatten).filterMap id

/-- Mean of a list of values; `none` when the list is empty (numpy NaN). -/
def listMeanOpt (l : List ℚ) : Option ℚ :=
  if l.isEmpty then none else some (l.sum / l.length)

/-- Effect of lines 163-164 on one pixel:
`image[np.isnan(image)] = -1; image[image <= 0] = np.nan`.
A NaN pixel becomes `-1` and is then remapped to NaN; a real pixel `<= 0`
becomes NaN; any other pixel is kept. -/
def maskPosPix : Option ℚ → Option ℚ
  | none => none
  | some x => if x ≤ 0 then none else some x

/-- Lines 163-164 applied to every pixel of the stack. -/
def maskPos (s : Stack) : Stack := s.map (List.map (List.map maskPosPix))

/-- Elementwise `np.subtract(image, background)` on one pixel: subtracting a
NaN background or subtracting from a NaN pixel gives NaN. -/
def subPix (bg : Option ℚ) : Option ℚ → Option ℚ
  | none => none
  | some x => match bg with
    | none => none
    | some b => some (x - b)

/-- Line 160: `image = np.subtract(image, background)`. -/
def stackSub (s : Stack) (bg : Option ℚ) : Stack :=
  s.map (List.map (List.map (subPix bg)))

/-- `np.nanmean` over the last axis of one row. -/
def rowNanMean (r : MRow) : Option ℚ := listMeanOpt (rowVals r)

/-- `np.nanmean(np.nanmean(frame, axis=1), axis=0)` for a single frame of
the stack, i.e. the per-frame reduction of line 167: the mean over rows of
the per-row means, rows without valid pixels being skipped. -/
def frameNanMean (fr : MFrame) : Option ℚ :=
  listMeanOpt ((fr.map rowNanMean).filterMap id)

/-- `np.nanmean(image)` over the whole stack (line 169). -/
def nanmeanFlat (s : Stack) : Option ℚ := listMeanOpt (stackVals s)

/-- The image after the optional background subtraction (lines 157-160). -/
def subStage (image : Stack) (bg : Option ℚ) (sub : Bool) : Stack :=
  if sub then stackSub image bg else image

/-- The image after subtraction and the optional positive mask
(lines 157-164). -/
def maskStage (image : Stack) (bg : Option ℚ) (sub only_pos : Bool) : Stack :=
  if only_pos then maskPos (subStage image bg sub) else subStage image bg sub

/-- Result of `get_mean_intensity`: a scalar or a per-frame time series. -/
inductive MeanResult
  | scalar (v : Option ℚ)
  | series (vs : List (Option ℚ))
deriving DecidableEq

/-- Lines 157-169 of `get_mean_intensity`, applied to an already sliced
image stack, given the scalar background mean `bg`. -/
def meanCore (image : Stack) (bg : Option ℚ) (keep_time sub only_pos : Bool) :
    MeanResult :=
  if keep_time then .series ((maskStage image bg sub only_pos).map frameNanMean)
  else .scalar (nanmeanFlat (maskStage image bg sub only_pos))

/-- Modelled from the spec: the `InvalidRoi` error. The class
`InvalidROIError` lives in `frapalyzer/errors.py`, which is not part of the
provided sources; per the spec it is an error that is always surfaced to the
caller. The two constructors carry the two messages used in
`frapalyzer.py` (line 146: Invalid ROI specified; line 185: Only circular
and rectangular ROIs are supported). -/
inductive AnalyzerError
  | invalidRoiSpecified
  | unsupportedRoiShape
deriving DecidableEq

/-- `FRAPalyzer._check_roi` (lines 138-146): raise `InvalidROIError` when
the ROI is `None` or has no shape key. -/
def _check_roi (roi : Option Roi) : Except AnalyzerError Unit :=
  match roi with
  | none => .error .invalidRoiSpecified
  | some r => if r.shape = none then .error .invalidRoiSpecified else .ok ()

/-- `FRAPalyzer._get_slice_from_roi` (lines 174-186). -/
def _get_slice_from_roi (f : NDFile) (roi : Roi) : Except AnalyzerError Stack :=
  if roi.shape = some .circle then .ok (_get_circular_slice_from_roi f roi)
  else if roi.shape = some .rectangle then .ok (_get_rectangular_slice_from_roi f roi)
  else .error .unsupportedRoiShape

/-- `FRAPalyzer.get_mean_intensity` (lines 148-169). The recursive call for
the background ROI uses `keep_time=False, subtract_background=False,
only_gt_zero=True`, so it is unrolled here: check the background ROI, slice
it, apply the positive mask and take the flat nan-mean. -/
def get_mean_intensity (f : NDFile) (roi : Option Roi)
    (keep_time sub only_pos : Bool) : Except AnalyzerError MeanResult :=
  match roi with
  | none => .error .invalidRoiSpecified
  | some r =>
    if r.shape = none then .error .invalidRoiSpecified
    else
      match _get_slice_from_roi f r with
      | .error e => .error e
      | .ok image =>
        if sub then
          match f.background_roi with
          | none => .error .invalidRoiSpecified
          | some br =>
            if br.shape = none then .error .invalidRoiSpecified
            else
              match _get_slice_from_roi f br with
              | .error e => .error e
              | .ok bimage =>
                .ok (meanCore image (nanmeanFlat (maskPos bimage)) keep_time sub only_pos)
        else .ok (meanCore image none keep_time sub only_pos)

/-- One acquisition loop of `metadata$experiment$loops`. -/
structure Loop where
  stimulation : Bool
  duration : ℚ
  sampling_interval : ℚ
deriving DecidableEq

/-- The loop of `_get_bleach_time_index` (lines 111-118) with the running
float frame count as accumulator. -/
def bleachIndexAux : List Loop → ℚ → ℤ
  | [], acc => roundHalfEven acc
  | l :: ls, acc =>
    if l.stimulation then roundHalfEven acc
    else bleachIndexAux ls (acc + l.duration / l.sampling_interval)

/-- `FRAPalyzer._get_bleach_time_index` (lines 106-118). -/
def _get_bleach_time_index (loops : List Loop) : ℤ := bleachIndexAux loops 0

/-- `np.arange(start, stop, step)` for a positive step, over exact
rationals: the values `start + k * step` for `0 <= k < ceil((stop - start)/step)`. -/
def arangeQ (start stop step : ℚ) : List ℚ :=
  (List.range (Int.toNat ⌈(stop - start) / step⌉)).map
    (fun (k : ℕ) => start + (k : ℚ) * step)

/-- The loop of `_get_timesteps` (lines 125-133), with the running clock as
accumulator: stimulation loops are skipped entirely, an imaging loop appends
`np.arange(current_time, current_time + duration, sampling_interval)` and
advances the clock by its duration. -/
def timestepsAux : List Loop → ℚ → List ℚ
  | [], _ => []
  | l :: ls, t =>
    if l.stimulation then timestepsAux ls t
    else arangeQ t (t + l.duration) l.sampling_interval ++ timestepsAux ls (t + l.duration)

/-- `FRAPalyzer._get_timesteps` (lines 120-136): the accumulated timesteps,
truncated to the number of frames actually acquired. -/
def _get_timesteps (loops : List Loop) (num_frames : ℕ) : List ℚ :=
  (timestepsAux loops 0).take num_frames

/-- Errors `fit_exponential_recovery` can raise: `np.max` of an empty array
(`ValueError`) and an out-of-range list index that is not caught by the
`try` block (`IndexError`). -/
inductive PyErr
  | valueError
  | indexError
deriving DecidableEq

/-- First index of the minimum of a list (`np.argmin`); `0` on the empty list. -/
def argminIdx : List ℚ → ℕ
  | [] => 0
  | [_] => 0
  | x :: y :: ys =>
    let j := argminIdx (y :: ys)
    if x ≤ (y :: ys).getD j 0 then 0 else j + 1

/-- Lines 82-91 of `fit_exponential_recovery`: the initial guess
`(recovery, half_time)`. `recovery = np.max(data[bleach:])`;
`half_time = timesteps[argmin |data[bleach:] - recovery/2|]`, falling back
to `timesteps[bleach]` when that index is out of range. -/
def initialGuess (data ts : List ℚ) (bleach : ℕ) : Except PyErr (ℚ × ℚ) :=
  match (data.drop bleach).max? with
  | none => .error .valueError
  | some recovery =>
    let k := argminIdx ((data.drop bleach).map (fun v => |v - recovery / 2|))
    match ts.get? k with
    | some t => .ok (recovery, t)
    | none =>
      match ts.get? bleach with
      | some t => .ok (recovery, t)
      | none => .error .indexError

/-- Outcome of `scipy.optimize.least_squares`, as far as the code reads it:
the success flag and the two refined parameters. -/
structure SolverResult where
  success : Bool
  x0 : ℚ
  x1 : ℚ
deriving DecidableEq

/-- The external least-squares solver, a black box receiving the initial
guess, the time values `timesteps[bleach:]` and the target values
`data[bleach:]` (the closure `frap_fit_function` is internal to it). -/
abbrev Solver := (ℚ × ℚ) → List ℚ → List ℚ → SolverResult

/-- `FRAPalyzer.fit_exponential_recovery` (lines 73-104), taking the
normalized stimulation signal `data`, the timesteps and the bleach index as
inputs and the solver as a parameter. On solver success the refined
parameters are returned, otherwise the initial guess. -/
def fit_exponential_recovery (data ts : List ℚ) (bleach : ℕ)
    (solver : Solver) : Except PyErr (ℚ × ℚ) :=
  match initialGuess data ts bleach with
  | .error e => .error e
  | .ok g =>
    let res := solver g (ts.drop bleach) (data.drop bleach)
    .ok (if res.success then (res.x0, res.x1) else g)

/-- A solver that always reports failure, used to observe the initial guess. -/
def constFailSolver : Solver := fun _ _ _ => ⟨false, 0, 0⟩

/-- Concrete rectangle ROI used as the failing input of C1: centered at
`(10, 10)` microns with size `(4, 4)` microns, on a file with
`micron_per_pixel = 2`. -/
def roiRectEx : Roi := ⟨some .rectangle, (10, 10), (4, 4)⟩

/-- Concrete circle ROI used for C5: center `(2, 2)` microns, radius `1`
micron, `micron_per_pixel = 1`. -/
def roiCircleEx : Roi := ⟨some .circle, (2, 2), (1, 1)⟩

/-- Loop list used for C10: one imaging loop planning 10 frames, then the
stimulation loop; acquisition stops early after 3 frames. -/
def loopsEx : List Loop := [⟨false, 10, 1⟩, ⟨true, 1, 1⟩]

/-! ### Lemmas about the rounding function -/

theorem roundHalfEven_floor_le (q : ℚ) : ⌊q⌋ ≤ roundHalfEven q := by
  rw [roundHalfEven]; split_ifs <;> omega

theorem roundHalfEven_le_floor_add_one (q : ℚ) : roundHalfEven q ≤ ⌊q⌋ + 1 := by
  rw [roundHalfEven]; split_ifs <;> omega

theorem roundHalfEven_mono {a b : ℚ} (hab : a ≤ b) :
    roundHalfEven a ≤ roundHalfEven b := by
  have hfm : ⌊a⌋ ≤ ⌊b⌋ := Int.floor_mono hab
  rcases eq_or_lt_of_le hfm with h | h
  · rw [roundHalfEven, roundHalfEven, ← h]
    split_ifs <;> first | omega | (exfalso; linarith)
  · calc roundHalfEven a ≤ ⌊a⌋ + 1 := roundHalfEven_le_floor_add_one a
      _ ≤ ⌊b⌋ := by omega
      _ ≤ roundHalfEven b := roundHalfEven_floor_le b

theorem roundHalfEven_eq_of_lt_half {q : ℚ} {n : ℤ} (h1 : (n : ℚ) ≤ q)
    (h2 : q < (n : ℚ) + 1/2) : roundHalfEven q = n := by
  have hf : ⌊q⌋ = n := Int.floor_eq_iff.mpr ⟨h1, by linarith⟩
  rw [roundHalfEven, hf, if_pos (show q - (n : ℚ) < 1/2 by linarith)]

theorem roundHalfEven_eq_of_gt_half {q : ℚ} {n : ℤ} (h1 : (n : ℚ) + 1/2 < q)
    (h2 : q < (n : ℚ) + 1) : roundHalfEven q = n + 1 := by
  have hf : ⌊q⌋ = n := Int.floor_eq_iff.mpr ⟨by linarith, by exact_mod_cast h2⟩
  have hx : ¬(q - (n : ℚ) < 1/2) := by push_neg; linarith
  have hy : 1/2 < q - (n : ℚ) := by linarith
  rw [roundHalfEven, hf, if_neg hx, if_pos hy]

theorem roundHalfEven_eq_intCast {q : ℚ} {n : ℤ} (h : q = (n : ℚ)) :
    roundHalfEven q = n := by
  subst h
  exact roundHalfEven_eq_of_lt_half le_rfl (by linarith)

theorem roundHalfEven_zero : roundHalfEven 0 = 0 :=
  roundHalfEven_eq_intCast (by norm_num)

/-! ### Lemmas about the bleach index -/

theorem bleachIndexAux_eq (loops : List Loop) (acc : ℚ) :
    bleachIndexAux loops acc =
      roundHalfEven (acc + ((loops.takeWhile (fun l => !l.stimulation)).map
        (fun l => l.duration / l.sampling_interval)).sum) := by
  induction loops generalizing acc with
  | nil => simp [bleachIndexAux]
  | cons l ls ih =>
    rw [bleachIndexAux]
    by_cases h : l.stimulation
    · rw [if_pos h, List.takeWhile_cons, if_neg (by simp [h])]
      simp
    · rw [if_neg h, ih, List.takeWhile_cons, if_pos (by simp [h]),
        List.map_cons, List.sum_cons, add_assoc]

/-- C6: `_get_bleach_time_index` equals the rounded sum of
`duration / sampling_interval` over the maximal prefix of non-stimulation
loops (the walk stops at the first stimulation loop); and when no
stimulation loop exists it equals the rounded total frame count. -/
theorem C6_bleach_index (loops : List Loop) :
    _get_bleach_time_index loops =
      roundHalfEven (((loops.takeWhile (fun l => !l.stimulation)).map
        (fun l => l.duration / l.sampling_interval)).sum)
    ∧ ((∀ l ∈ loops, l.stimulation = false) →
      _get_bleach_time_index loops =
        roundHalfEven ((loops.map (fun l => l.duration / l.sampling_interval)).sum)) := by
  have h := bleachIndexAux_eq loops 0
  rw [zero_add] at h
  refine ⟨h, fun hall => ?_⟩
  have htw : loops.takeWhile (fun l => !l.stimulation) = loops :=
    List.takeWhile_eq_self_iff.mpr (by intro x hx; simp [hall x hx])
  rw [_get_bleach_time_index, h, htw]

/-- Witness for C6 at a file with two imaging loops and no stimulation
loop: the bleach index is the rounded total frame count. -/
theorem C6_bleach_index_witness :
    (∀ l ∈ ([⟨false, 3, 1⟩, ⟨false, 4, 2⟩] : List Loop), l.stimulation = false)
    ∧ _get_bleach_time_index [⟨false, 3, 1⟩, ⟨false, 4, 2⟩] =
      roundHalfEven ((([⟨false, 3, 1⟩, ⟨false, 4, 2⟩] : List Loop).map
        (fun l => l.duration / l.sampling_interval)).sum) := by
  have hall : ∀ l ∈ ([⟨false, 3, 1⟩, ⟨false, 4, 2⟩] : List Loop),
      l.stimulation = false := by decide
  exact ⟨hall, (C6_bleach_index _).2 hall⟩

/-! ### Lemmas about the timesteps -/

theorem arangeQ_length (start stop step : ℚ) :
    (arangeQ start stop step).length = Int.toNat ⌈(stop - start) / step⌉ := by
  simp only [arangeQ, List.length_map, List.length_range]

/-- C10 (counterexample): for a file with one imaging loop planning 10
frames followed by the stimulation loop, where acquisition stopped early
after 3 frames, the bleach index is 10 while the acquired frame count is 3,
violating the invariant `BleachIndex <= frame_count`. -/
theorem C10_bleach_exceeds_frame_count :
    _get_bleach_time_index loopsEx = 10
    ∧ (_get_timesteps loopsEx 3).length = 3
    ∧ ¬(_get_bleach_time_index loopsEx ≤ 3) := by
  have hb : _get_bleach_time_index loopsEx = 10 := by
    simp only [loopsEx, _get_bleach_time_index, bleachIndexAux]
    norm_num
    exact roundHalfEven_eq_intCast (by norm_num)
  have harr : (arangeQ 0 10 1).length = 10 := by
    rw [arangeQ_length,
      show ((10:ℚ) - 0) / 1 = ((10 : ℤ) : ℚ) by norm_num, Int.ceil_intCast]
    rfl
  have hlen : (timestepsAux loopsEx 0).length = 10 := by
    simp only [loopsEx, timestepsAux]
    simp [List.length_append, harr]
  refine ⟨hb, ?_, by rw [hb]; decide⟩
  rw [_get_timesteps, List.length_take, hlen]
  decide

/-- C10 (amended): with physically meaningful loop metadata (nonnegative
frame counts per loop) the bleach index satisfies
`0 <= BleachIndex <= round(total planned frame count)`; the upper bound is
the planned frame count over all loops, not the number of frames actually
acquired, which can be smaller when acquisition stops early. -/
theorem C10_bleach_index_bounds (loops : List Loop)
    (h : ∀ l ∈ loops, 0 ≤ l.duration / l.sampling_interval) :
    0 ≤ _get_bleach_time_index loops ∧
      _get_bleach_time_index loops ≤
        roundHalfEven ((loops.map (fun l => l.duration / l.sampling_interval)).sum) := by
  have heq := bleachIndexAux_eq loops 0
  rw [zero_add] at heq
  rw [_get_bleach_time_index, heq]
  have hpre : (0:ℚ) ≤ ((loops.takeWhile (fun l => !l.stimulation)).map
      (fun l => l.duration / l.sampling_interval)).sum := by
    apply List.sum_nonneg
    intro x hx
    obtain ⟨l, hl, rfl⟩ := List.mem_map.mp hx
    exact h l ((List.takeWhile_sublist _).subset hl)
  constructor
  · have hm := roundHalfEven_mono hpre
    rwa [roundHalfEven_zero] at hm
  · apply roundHalfEven_mono
    have hsplit : loops.map (fun l => l.duration / l.sampling_interval)
        = (loops.takeWhile (fun l => !l.stimulation)).map
            (fun l => l.duration / l.sampling_interval)
          ++ (loops.dropWhile (fun l => !l.stimulation)).map
            (fun l => l.duration / l.sampling_interval) := by
      rw [← List.map_append, List.takeWhile_append_dropWhile]
    rw [hsplit, List.sum_append]
    have hdrop : (0:ℚ) ≤ ((loops.dropWhile (fun l => !l.stimulation)).map
        (fun l => l.duration / l.sampling_interval)).sum := by
      apply List.sum_nonneg
      intro x hx
      obtain ⟨l, hl, rfl⟩ := List.mem_map.mp hx
      exact h l (List.dropWhile_subset _ hl)
    linarith

/-- Witness for C10 (amended) on the early-stopped file `loopsEx`. -/
theorem C10_bleach_index_bounds_witness :
    (∀ l ∈ loopsEx, 0 ≤ l.duration / l.sampling_interval)
    ∧ 0 ≤ _get_bleach_time_index loopsEx
    ∧ _get_bleach_time_index loopsEx ≤
        roundHalfEven ((loopsEx.map (fun l => l.duration / l.sampling_interval)).sum) := by
  have hyp : ∀ l ∈ loopsEx, 0 ≤ l.duration / l.sampling_interval := by
    intro l hl
    simp only [loopsEx] at hl
    rcases List.mem_cons.mp hl with rfl | hl
    · norm_num
    · rcases List.mem_cons.mp hl with rfl | hl
      · norm_num
      · simp at hl
  exact ⟨hyp, C10_bleach_index_bounds loopsEx hyp⟩

/-- C1 (code bug evidence): on a file with `micron_per_pixel = 2` and the
rectangle ROI centered at `(10, 10)` microns with size `(4, 4)` microns,
the code computes the pixel bounds `(8, 12, 8, 12)` by rounding the raw
micron coordinates, while the spec contract
`round(micron / micronsPerPixel)` gives `(4, 6, 4, 6)`: the rectangle path
never divides by the pixel size. -/
theorem C1_rect_bounds_not_scaled :
    rectCoordinates roiRectEx = (8, 12, 8, 12)
    ∧ rectCoordinates_spec 2 roiRectEx = (4, 6, 4, 6)
    ∧ rectCoordinates roiRectEx ≠ rectCoordinates_spec 2 roiRectEx := by
  have e1 : rectCoordinates roiRectEx = (8, 12, 8, 12) := by
    simp only [rectCoordinates, roiRectEx, Prod.mk.injEq]
    refine ⟨roundHalfEven_eq_intCast (by norm_num),
      roundHalfEven_eq_intCast (by norm_num),
      roundHalfEven_eq_intCast (by norm_num),
      roundHalfEven_eq_intCast (by norm_num)⟩
  have e2 : rectCoordinates_spec 2 roiRectEx = (4, 6, 4, 6) := by
    simp only [rectCoordinates_spec, _to_pixel, roiRectEx, Prod.mk.injEq]
    refine ⟨roundHalfEven_eq_intCast (by norm_num),
      roundHalfEven_eq_intCast (by norm_num),
      roundHalfEven_eq_intCast (by norm_num),
      roundHalfEven_eq_intCast (by norm_num)⟩
  refine ⟨e1, e2, ?_⟩
  rw [e1, e2]
  decide

/-! ### Lemmas about the positive mask and the nan-means -/

theorem rowVals_maskPos (r : MRow) :
    rowVals (r.map maskPosPix) = (rowVals r).filter (fun v => decide (0 < v)) := by
  induction r with
  | nil => rfl
  | cons a l ih =>
    cases a with
    | none => simpa [rowVals, maskPosPix] using ih
    | some x =>
      by_cases hx : x ≤ 0
      · have hnx : ¬(0 < x) := not_lt.mpr hx
        simp only [rowVals, List.map_cons, maskPosPix, if_pos hx] at *
        simpa [List.filterMap_cons, List.filter_cons, hnx] using ih
      · have hpx : 0 < x := lt_of_not_le hx
        simp only [rowVals, List.map_cons, maskPosPix, if_neg hx] at *
        simpa [List.filterMap_cons, List.filter_cons, hpx] using ih

theorem rowNanMean_maskPos (r : MRow) :
    rowNanMean (r.map maskPosPix) =
      listMeanOpt ((rowVals r).filter (fun v => decide (0 < v))) := by
  rw [rowNanMean, rowVals_maskPos]

theorem frameNanMean_maskPos (fr : MFrame) :
    frameNanMean (fr.map (List.map maskPosPix)) =
      listMeanOpt ((fr.map (fun row =>
        listMeanOpt ((rowVals row).filter (fun v => decide (0 < v))))).filterMap id) := by
  rw [frameNanMean, List.map_map]
  have hfun : (rowNanMean ∘ List.map maskPosPix) =
      (fun row => listMeanOpt ((rowVals row).filter (fun v => decide (0 < v)))) := by
    funext row
    exact rowNanMean_maskPos row
  rw [hfun]

theorem stackVals_maskPos (s : Stack) :
    stackVals (maskPos s) = (stackVals s).filter (fun v => decide (0 < v)) := by
  rw [stackVals, stackVals, maskPos, ← List.map_flatten, ← List.map_flatten]
  exact rowVals_maskPos _

/-- C2: in `get_mean_intensity` with `only_gt_zero = true`, the computed
means (scalar or per frame) are means of exactly the valid post-subtraction
values that are strictly positive: a pixel that is NaN or `<= 0` after
background subtraction appears in neither the numerator (the sum) nor the
denominator (the count) of any mean; it is excluded, not replaced by zero. -/
theorem C2_only_positive_exclusion (image : Stack) (bg : Option ℚ) (sub : Bool) :
    meanCore image bg false sub true =
      .scalar (listMeanOpt ((stackVals (subStage image bg sub)).filter
        (fun v => decide (0 < v))))
    ∧ meanCore image bg true sub true =
      .series ((subStage image bg sub).map (fun fr =>
        listMeanOpt ((fr.map (fun row =>
          listMeanOpt ((rowVals row).filter (fun v => decide (0 < v))))).filterMap id))) := by
  have hms : maskStage image bg sub true = maskPos (subStage image bg sub) := by
    rw [maskStage, if_pos rfl]
  constructor
  · rw [meanCore, if_neg (by decide), hms, nanmeanFlat, stackVals_maskPos]
  · rw [meanCore, if_pos rfl, hms, maskPos, List.map_map]
    have hfun : (frameNanMean ∘ List.map (List.map maskPosPix)) =
        (fun fr => listMeanOpt ((fr.map (fun row =>
          listMeanOpt ((rowVals row).filter (fun v => decide (0 < v))))).filterMap id)) := by
      funext fr
      exact frameNanMean_maskPos fr
    rw [hfun]

/-- Concrete stack (a single frame with rows of unequal valid-pixel count)
used as the counterexample of C3. -/
def stackEx : Stack := [[[some 1, none], [some 3, some 5]]]

/-- C3 (counterexample): on a frame whose rows have unequal numbers of
valid pixels, `keep_time=True` yields the mean of row means `5/2`, not the
spatial mean `3` over the three valid pixels `1, 3, 5`. -/
theorem C3_nested_mean_counterexample :
    meanCore stackEx none true false false = .series [some (5/2)]
    ∧ nanmeanFlat stackEx = some 3
    ∧ (5/2 : ℚ) ≠ 3 := by
  refine ⟨?_, ?_, by norm_num⟩
  · simp only [meanCore, if_pos rfl, maskStage, subStage, if_neg (by decide : ¬(false = true)),
      stackEx, List.map_cons, List.map_nil, frameNanMean, rowNanMean, rowVals,
      List.filterMap_cons, List.filterMap_nil, listMeanOpt]
    norm_num
  · have hv : stackVals stackEx = [1, 3, 5] := rfl
    rw [nanmeanFlat, hv, listMeanOpt, if_neg (by decide)]
    norm_num [List.sum_cons, List.sum_nil]

/-- C3 (amended): with `keep_time=True`, `get_mean_intensity` returns one
value per frame in frame order, each being the nan-mean over rows of the
per-row nan-means of the masked frame (the mean of row means, which equals
the spatial mean only when all rows have the same number of valid pixels);
a frame with zero valid pixels yields `none` (NaN), propagated rather than
raising; with `keep_time=False` it returns the single mean over all valid
pixels of all frames. -/
theorem C3_keep_time_mean_structure (image : Stack) (bg : Option ℚ)
    (sub only_pos : Bool) :
    meanCore image bg true sub only_pos =
      .series ((maskStage image bg sub only_pos).map frameNanMean)
    ∧ (∀ fr : MFrame, frameVals fr = [] → frameNanMean fr = none)
    ∧ meanCore image bg false sub only_pos =
      .scalar (listMeanOpt (stackVals (maskStage image bg sub only_pos))) := by
  refine ⟨by rw [meanCore, if_pos rfl], ?_, by rw [meanCore, if_neg (by decide), nanmeanFlat]⟩
  intro fr h
  have hall : ∀ row ∈ fr, rowVals row = [] := by
    intro row hrow
    have h2 := List.flatten_eq_nil_iff.mp h
    exact h2 _ (List.mem_map_of_mem rowVals hrow)
  have hnone : (fr.map rowNanMean).filterMap id = [] := by
    apply List.filterMap_eq_nil_iff.mpr
    intro a ha
    obtain ⟨row, hrow, rfl⟩ := List.mem_map.mp ha
    rw [rowNanMean, hall row hrow]
    rfl
  rw [frameNanMean, hnone]
  rfl

/-- Witness for C3 (amended): a frame consisting of a single NaN pixel has
no valid values and its per-frame mean is NaN. -/
theorem C3_keep_time_mean_structure_witness :
    frameVals ([[none]] : MFrame) = [] ∧ frameNanMean ([[none]] : MFrame) = none :=
  ⟨rfl, (C3_keep_time_mean_structure [] none false false).2.1 [[none]] rfl⟩

/-- Concrete empty file whose metadata has no background ROI. -/
def fileEx : NDFile := ⟨[], 0, 0, 1, none⟩

/-- C8: `get_mean_intensity` raises `InvalidROIError` whenever the required
ROI is `None`, has no shape key, or has an unsupported shape value, and
likewise for the background ROI it requires when
`subtract_background=True`; the error is returned to the caller in every
case, never replaced by a default result. -/
theorem C8_invalid_roi (f : NDFile) (keep sub pos : Bool) :
    get_mean_intensity f none keep sub pos = .error .invalidRoiSpecified
    ∧ (∀ r : Roi, r.shape = none →
        get_mean_intensity f (some r) keep sub pos = .error .invalidRoiSpecified)
    ∧ (∀ (r : Roi) (c : ℕ), r.shape = some (.unsupported c) →
        get_mean_intensity f (some r) keep sub pos = .error .unsupportedRoiShape)
    ∧ (∀ r : Roi, (r.shape = some .circle ∨ r.shape = some .rectangle) →
        f.background_roi = none →
        get_mean_intensity f (some r) keep true pos = .error .invalidRoiSpecified)
    ∧ (∀ r br : Roi, (r.shape = some .circle ∨ r.shape = some .rectangle) →
        f.background_roi = some br → br.shape = none →
        get_mean_intensity f (some r) keep true pos = .error .invalidRoiSpecified)
    ∧ (∀ (r br : Roi) (c : ℕ), (r.shape = some .circle ∨ r.shape = some .rectangle) →
        f.background_roi = some br → br.shape = some (.unsupported c) →
        get_mean_intensity f (some r) keep true pos = .error .unsupportedRoiShape) := by
  refine ⟨rfl, ?_, ?_, ?_, ?_, ?_⟩
  · intro r h
    simp [get_mean_intensity, h]
  · intro r c h
    simp [get_mean_intensity, _get_slice_from_roi, h]
  · intro r hsh hbg
    rcases hsh with h | h <;>
      simp [get_mean_intensity, _get_slice_from_roi, h, hbg]
  · intro r br hsh hbg hbs
    rcases hsh with h | h <;>
      simp [get_mean_intensity, _get_slice_from_roi, h, hbg, hbs]
  · intro r br c hsh hbg hbs
    rcases hsh with h | h <;>
      simp [get_mean_intensity, _get_slice_from_roi, h, hbg, hbs]

/-- Witness for C8: on a file without a background ROI, requesting a
background-subtracted mean of a valid circular ROI raises the invalid ROI
error. -/
theorem C8_invalid_roi_witness :
    fileEx.background_roi = none
    ∧ get_mean_intensity fileEx (some roiCircleEx) false true true =
        .error .invalidRoiSpecified :=
  ⟨rfl, (C8_invalid_roi fileEx false true true).2.2.2.1 roiCircleEx (Or.inl rfl) rfl⟩

/-! ### Lemmas about the recovery fit -/

theorem initialGuess_eq (data ts : List ℚ) (bleach : ℕ) (A0 : ℚ)
    (hm : (data.drop bleach).max? = some A0) :
    initialGuess data ts bleach =
      (match ts.get? (argminIdx ((data.drop bleach).map (fun v => |v - A0 / 2|))) with
       | some t => .ok (A0, t)
       | none =>
         match ts.get? bleach with
         | some t => .ok (A0, t)
         | none => .error .indexError) := by
  unfold initialGuess
  rw [hm]

/-- Another always-failing solver, for the C9 witness. -/
def constFailSolver2 : Solver := fun _ _ _ => ⟨false, 7, 7⟩

/-- C4 (counterexample): for `data = [0,0,3,2]`, `timesteps = [0,1,2,4]`
and bleach index 2 (two loops with different sampling intervals), the code
computes the initial guess `(A0, t0) = (3, 1)`: `t0 = timesteps[1]`, the
absolute timestamp at the argmin offset, whereas the timestamp relative to
bleach at that sample is `timesteps[3] - timesteps[2] = 2`; and the times
handed to the solver are the unshifted `timesteps[2:] = [2, 4]`, not the
shifted `t - t_bleach` values `[0, 2]`. -/
theorem C4_initial_guess_counterexample :
    initialGuess [0, 0, 3, 2] [0, 1, 2, 4] 2 = .ok (3, 1)
    ∧ fit_exponential_recovery [0, 0, 3, 2] [0, 1, 2, 4] 2 constFailSolver = .ok (3, 1)
    ∧ ([0, 1, 2, 4] : List ℚ).getD 3 0 - ([0, 1, 2, 4] : List ℚ).getD 2 0 = 2
    ∧ ((1 : ℚ) ≠ 2)
    ∧ ([0, 1, 2, 4] : List ℚ).drop 2 = [2, 4]
    ∧ (([2, 4] : List ℚ) ≠ [2 - 2, 4 - 2]) := by
  have hdrop : (([0, 0, 3, 2] : List ℚ).drop 2) = [3, 2] := rfl
  have hmax : (([0, 0, 3, 2] : List ℚ).drop 2).max? = some 3 := by
    rw [hdrop, show ([3, 2] : List ℚ).max? = some (max 3 2) from rfl,
      max_eq_left (by norm_num : (2:ℚ) ≤ 3)]
  have hmap : ([3, 2] : List ℚ).map (fun v => |v - 3 / 2|) = [3/2, 1/2] := by
    rw [List.map_cons, List.map_cons, List.map_nil,
      show (3:ℚ) - 3/2 = 3/2 by norm_num, show (2:ℚ) - 3/2 = 1/2 by norm_num,
      abs_of_pos (by norm_num : (0:ℚ) < 3/2), abs_of_pos (by norm_num : (0:ℚ) < 1/2)]
  have hargmin : argminIdx [(3:ℚ)/2, 1/2] = 1 := by
    simp only [argminIdx, List.getD_cons_zero]
    rw [if_neg (by norm_num : ¬((3:ℚ)/2 ≤ 1/2))]
  have hg : initialGuess [0, 0, 3, 2] [0, 1, 2, 4] 2 = .ok (3, 1) := by
    rw [initialGuess_eq _ _ _ 3 hmax, hdrop, hmap, hargmin]
    rfl
  refine ⟨hg, ?_, by norm_num, by norm_num, rfl, by norm_num⟩
  simp only [fit_exponential_recovery, hg]
  rfl

/-- C4 (amended): given that the initial guess is `(A0, t0)`,
`fit_exponential_recovery` hands the solver exactly the unshifted
`timesteps[bleach:]` and `data[bleach:]` and returns the refined values on
success and `(A0, t0)` on failure; `A0` is the maximum of the post-bleach
data; and `t0` is `timesteps[k]` where `k` is the first argmin offset of
`|data[bleach:] - A0/2|` (an absolute timestamp indexed from the start of
the series), falling back to `timesteps[bleach]` when `k` is out of range. -/
theorem C4_fit_guess_amended (data ts : List ℚ) (bleach : ℕ) (A0 t0 : ℚ)
    (solver : Solver)
    (h : initialGuess data ts bleach = .ok (A0, t0)) :
    fit_exponential_recovery data ts bleach solver =
      .ok (if (solver (A0, t0) (ts.drop bleach) (data.drop bleach)).success
           then ((solver (A0, t0) (ts.drop bleach) (data.drop bleach)).x0,
                 (solver (A0, t0) (ts.drop bleach) (data.drop bleach)).x1)
           else (A0, t0))
    ∧ (data.drop bleach).max? = some A0
    ∧ (ts.get? (argminIdx ((data.drop bleach).map (fun v => |v - A0 / 2|))) = some t0
       ∨ (ts.get? (argminIdx ((data.drop bleach).map (fun v => |v - A0 / 2|))) = none
          ∧ ts.get? bleach = some t0)) := by
  refine ⟨by simp only [fit_exponential_recovery, h], ?_⟩
  cases hmm : (data.drop bleach).max? with
  | none =>
    exfalso
    unfold initialGuess at h
    rw [hmm] at h
    simp at h
  | some recovery =>
    rw [initialGuess_eq data ts bleach recovery hmm] at h
    cases hgq : ts.get? (argminIdx ((data.drop bleach).map
        (fun v => |v - recovery / 2|))) with
    | some t =>
      rw [hgq] at h
      dsimp only at h
      injection h with h2
      rw [Prod.mk.injEq] at h2
      obtain ⟨rfl, rfl⟩ := h2
      exact ⟨rfl, Or.inl hgq⟩
    | none =>
      rw [hgq] at h
      dsimp only at h
      cases hbq : ts.get? bleach with
      | some t =>
        rw [hbq] at h
        dsimp only at h
        injection h with h2
        rw [Prod.mk.injEq] at h2
        obtain ⟨rfl, rfl⟩ := h2
        exact ⟨rfl, Or.inr ⟨hgq, rfl⟩⟩
      | none =>
        rw [hbq] at h
        simp at h

/-- Witness for C4 (amended) at the counterexample input with the failing
solver. -/
theorem C4_fit_guess_amended_witness :
    initialGuess [0, 0, 3, 2] [0, 1, 2, 4] 2 = .ok (3, 1)
    ∧ fit_exponential_recovery [0, 0, 3, 2] [0, 1, 2, 4] 2 constFailSolver =
        .ok (if (constFailSolver (3, 1) (([0, 1, 2, 4] : List ℚ).drop 2)
                  (([0, 0, 3, 2] : List ℚ).drop 2)).success
             then ((constFailSolver (3, 1) (([0, 1, 2, 4] : List ℚ).drop 2)
                  (([0, 0, 3, 2] : List ℚ).drop 2)).x0,
                   (constFailSolver (3, 1) (([0, 1, 2, 4] : List ℚ).drop 2)
                  (([0, 0, 3, 2] : List ℚ).drop 2)).x1)
             else (3, 1)) := by
  have hdrop : (([0, 0, 3, 2] : List ℚ).drop 2) = [3, 2] := rfl
  have hmax : (([0, 0, 3, 2] : List ℚ).drop 2).max? = some 3 := by
    rw [hdrop, show ([3, 2] : List ℚ).max? = some (max 3 2) from rfl,
      max_eq_left (by norm_num : (2:ℚ) ≤ 3)]
  have hmap : ([3, 2] : List ℚ).map (fun v => |v - 3 / 2|) = [3/2, 1/2] := by
    rw [List.map_cons, List.map_cons, List.map_nil,
      show (3:ℚ) - 3/2 = 3/2 by norm_num, show (2:ℚ) - 3/2 = 1/2 by norm_num,
      abs_of_pos (by norm_num : (0:ℚ) < 3/2), abs_of_pos (by norm_num : (0:ℚ) < 1/2)]
  have hargmin : argminIdx [(3:ℚ)/2, 1/2] = 1 := by
    simp only [argminIdx, List.getD_cons_zero]
    rw [if_neg (by norm_num : ¬((3:ℚ)/2 ≤ 1/2))]
  have hg : initialGuess [0, 0, 3, 2] [0, 1, 2, 4] 2 = .ok (3, 1) := by
    rw [initialGuess_eq _ _ _ 3 hmax, hdrop, hmap, hargmin]
    rfl
  exact ⟨hg, (C4_fit_guess_amended [0, 0, 3, 2] [0, 1, 2, 4] 2 3 1 constFailSolver hg).1⟩

/-- C9: when the solver reports failure, `fit_exponential_recovery` returns
the initial guess unchanged and raises no error: solver success or failure
is visible to the caller only through the returned values. -/
theorem C9_solver_failure_returns_guess (data ts : List ℚ) (bleach : ℕ)
    (A0 t0 : ℚ) (solver : Solver)
    (h : initialGuess data ts bleach = .ok (A0, t0))
    (hf : (solver (A0, t0) (ts.drop bleach) (data.drop bleach)).success = false) :
    fit_exponential_recovery data ts bleach solver = .ok (A0, t0) := by
  simp only [fit_exponential_recovery, h]
  rw [hf]
  simp

/-- Witness for C9: a signal with bleach at frame 0, guess `(2, 0)`, and an
always-failing solver; the fit returns the guess. -/
theorem C9_solver_failure_returns_guess_witness :
    initialGuess [1, 2] [0, 1] 0 = .ok (2, 0)
    ∧ fit_exponential_recovery [1, 2] [0, 1] 0 constFailSolver2 = .ok (2, 0) := by
  have hmax : (([1, 2] : List ℚ).drop 0).max? = some 2 := by
    rw [List.drop_zero, show ([1, 2] : List ℚ).max? = some (max 1 2) from rfl,
      max_eq_right (by norm_num : (1:ℚ) ≤ 2)]
  have hmap : ([1, 2] : List ℚ).map (fun v => |v - 2 / 2|) = [0, 1] := by
    rw [List.map_cons, List.map_cons, List.map_nil,
      show (1:ℚ) - 2/2 = 0 by norm_num, show (2:ℚ) - 2/2 = 1 by norm_num,
      abs_zero, abs_one]
  have hargmin : argminIdx [(0:ℚ), 1] = 0 := by
    simp only [argminIdx, List.getD_cons_zero]
    rw [if_pos (by norm_num : (0:ℚ) ≤ 1)]
  have hg : initialGuess [1, 2] [0, 1] 0 = .ok (2, 0) := by
    rw [initialGuess_eq _ _ _ 2 hmax, List.drop_zero, hmap, hargmin]
    rfl
  exact ⟨hg, C9_solver_failure_returns_guess [1, 2] [0, 1] 0 2 0 constFailSolver2 hg rfl⟩

/-! ### Lemmas about python slices and the circular footprint -/

theorem pySliceIdx_of_nonneg (n : ℕ) (a b : ℤ) (ha : 0 ≤ a) (hb : b ≤ (n : ℤ))
    (hab : a ≤ b) :
    pySliceIdx n a b = (List.range (b.toNat - a.toNat)).map (fun k => a.toNat + k) := by
  simp only [pySliceIdx]
  rw [if_neg (not_lt.mpr ha), if_neg (not_lt.mpr (le_trans ha hab)),
    min_eq_left (le_trans hab hb), min_eq_left hb]

theorem range_map_getD (m c i : ℕ) (h : i < m) :
    ((List.range m).map (fun k => c + k)).getD i 0 = c + i := by
  rw [List.getD_eq_getElem?_getD, List.getElem?_map, List.getElem?_range h]
  rfl

theorem filterMap_congr_mem {α β : Type} {f g : α → Option β} {l : List α}
    (h : ∀ a ∈ l, f a = g a) : l.filterMap f = l.filterMap g := by
  induction l with
  | nil => rfl
  | cons a l ih =>
    rw [List.filterMap_cons, List.filterMap_cons, h a (List.mem_cons_self a l),
      ih (fun x hx => h x (List.mem_cons_of_mem a hx))]

/-- Helper: the concrete value of `circleParams` at the C5 example. -/
theorem circleParamsEx : circleParams 1 roiCircleEx = (2, 2, 1) := by
  simp only [circleParams, roiCircleEx, _to_pixel, Prod.mk.injEq]
  exact ⟨roundHalfEven_eq_intCast (by norm_num),
    roundHalfEven_eq_intCast (by norm_num),
    roundHalfEven_eq_intCast (by norm_num)⟩

/-- C5 (counterexample): with `micron_per_pixel = 1`, a circle ROI centered
at pixel `(2, 2)` with radius `1` on a 6x6 image, the pixel `(3, 2)` is at
distance exactly the radius from the center but is not sampled: the
bounding box slice `[center - r, center + r)` is half open, so the far
boundary row and column of the circle are excluded. -/
theorem C5_boundary_pixel_excluded :
    ((3 : ℤ) - 2) ^ 2 + ((2 : ℤ) - 2) ^ 2 ≤ 1 ^ 2
    ∧ (3, 2) ∉ circleFootprint 1 roiCircleEx 6 6 := by
  have e : circleFootprint 1 roiCircleEx 6 6 = [(1, 2), (2, 1), (2, 2)] := by
    simp only [circleFootprint, circleParamsEx]
    decide
  rw [e]
  exact ⟨by norm_num, by decide⟩

/-- C5 (amended): when the pixel bounding box of the circle lies inside the
image, the sampled footprint is exactly the set of pixels inside the
half-open box `[cy - r, cy + r) x [cx - r, cx + r)` whose squared distance
from the pixel center is at most `r^2`: all sampled pixels lie within the
radius, pixels of the box beyond the radius are masked invalid, but pixels
at distance exactly `r` on the far (bottom/right) boundary of the box are
not sampled at all. -/
theorem C5_circle_footprint_amended (mpp : ℚ) (roi : Roi) (H W : ℕ)
    (cx cy r : ℤ) (hp : circleParams mpp roi = (cx, cy, r)) (hr : 0 ≤ r)
    (h1 : 0 ≤ cy - r) (h2 : cy + r ≤ (H : ℤ))
    (h3 : 0 ≤ cx - r) (h4 : cx + r ≤ (W : ℤ)) (gi gj : ℕ) :
    (gi, gj) ∈ circleFootprint mpp roi H W ↔
      (cy - r ≤ (gi : ℤ) ∧ (gi : ℤ) < cy + r ∧ cx - r ≤ (gj : ℤ) ∧ (gj : ℤ) < cx + r
       ∧ ((gi : ℤ) - cy) ^ 2 + ((gj : ℤ) - cx) ^ 2 ≤ r ^ 2) := by
  have hrows := pySliceIdx_of_nonneg H (cy - r) (cy + r) h1 h2 (by omega)
  have hcols := pySliceIdx_of_nonneg W (cx - r) (cx + r) h3 h4 (by omega)
  have e : circleFootprint mpp roi H W =
      ((List.range ((cy + r).toNat - (cy - r).toNat)).map (fun (i : ℕ) =>
        (List.range ((cx + r).toNat - (cx - r).toNat)).filterMap (fun (j : ℕ) =>
          if ((i : ℤ) - r) ^ 2 + ((j : ℤ) - r) ^ 2 > r ^ 2 then none
          else some ((cy - r).toNat + i, (cx - r).toNat + j)))).flatten := by
    simp only [circleFootprint, hp]
    rw [hrows, hcols]
    congr 1
    rw [List.length_map, List.length_range, List.length_map, List.length_range]
    apply List.map_congr_left
    intro i hi
    rw [List.mem_range] at hi
    apply filterMap_congr_mem
    intro j hj
    rw [List.mem_range] at hj
    by_cases hmask : ((i : ℤ) - r) ^ 2 + ((j : ℤ) - r) ^ 2 > r ^ 2
    · rw [if_pos hmask, if_pos hmask]
    · rw [if_neg hmask, if_neg hmask, range_map_getD _ _ _ hi, range_map_getD _ _ _ hj]
  rw [e]
  constructor
  · intro hmem
    rw [List.mem_flatten] at hmem
    obtain ⟨l, hl, hx⟩ := hmem
    rw [List.mem_map] at hl
    obtain ⟨i, hi, rfl⟩ := hl
    rw [List.mem_range] at hi
    rw [List.mem_filterMap] at hx
    obtain ⟨j, hj, hfj⟩ := hx
    rw [List.mem_range] at hj
    by_cases hmask : ((i : ℤ) - r) ^ 2 + ((j : ℤ) - r) ^ 2 > r ^ 2
    · rw [if_pos hmask] at hfj
      exact absurd hfj (by simp)
    · rw [if_neg hmask] at hfj
      injection hfj with hpair
      rw [Prod.mk.injEq] at hpair
      obtain ⟨hgi, hgj⟩ := hpair
      have ei : (i : ℤ) - r = (gi : ℤ) - cy := by omega
      have ej : (j : ℤ) - r = (gj : ℤ) - cx := by omega
      rw [ei, ej] at hmask
      push_neg at hmask
      refine ⟨by omega, by omega, by omega, by omega, hmask⟩
  · rintro ⟨hb1, hb2, hb3, hb4, hdist⟩
    rw [List.mem_flatten]
    refine ⟨_, List.mem_map.mpr
      ⟨gi - (cy - r).toNat, List.mem_range.mpr (by omega), rfl⟩, ?_⟩
    rw [List.mem_filterMap]
    refine ⟨gj - (cx - r).toNat, List.mem_range.mpr (by omega), ?_⟩
    have ei : ((gi - (cy - r).toNat : ℕ) : ℤ) - r = (gi : ℤ) - cy := by omega
    have ej : ((gj - (cx - r).toNat : ℕ) : ℤ) - r = (gj : ℤ) - cx := by omega
    rw [if_neg (by rw [ei, ej]; exact not_lt.mpr hdist)]
    have egi : (cy - r).toNat + (gi - (cy - r).toNat) = gi := by omega
    have egj : (cx - r).toNat + (gj - (cx - r).toNat) = gj := by omega
    rw [egi, egj]

/-- Witness for C5 (amended) at the concrete circle of `roiCircleEx`: the
pixel `(1, 2)`, at distance 1 from the center `(2, 2)`, is sampled. -/
theorem C5_circle_footprint_amended_witness :
    circleParams 1 roiCircleEx = (2, 2, 1)
    ∧ (1, 2) ∈ circleFootprint 1 roiCircleEx 6 6 := by
  refine ⟨circleParamsEx, ?_⟩
  exact (C5_circle_footprint_amended 1 roiCircleEx 6 6 2 2 1 circleParamsEx
    (by decide) (by decide) (by decide) (by decide) (by decide) 1 2).mpr (by decide)

/-- C7: the timesteps walk treats loops as the claim states: a stimulation
loop contributes no timestamps and does not advance the clock; an imaging
loop appends `current_time + k * interval` for exactly those `k` with
`current_time + k * interval < current_time + duration` (in order, `k`-th
entry `current_time + k * interval`) and then advances the clock by
`duration`; the final sequence is the accumulated list truncated to the
number of frames actually acquired. -/
theorem C7_timesteps :
    (∀ (l : Loop) (ls : List Loop) (t : ℚ), l.stimulation = true →
      timestepsAux (l :: ls) t = timestepsAux ls t)
    ∧ (∀ (l : Loop) (ls : List Loop) (t : ℚ), l.stimulation = false →
      timestepsAux (l :: ls) t =
        arangeQ t (t + l.duration) l.sampling_interval ++ timestepsAux ls (t + l.duration))
    ∧ (∀ t d i : ℚ, 0 < i → ∀ k : ℕ,
      (arangeQ t (t + d) i).get? k =
        if t + (k : ℚ) * i < t + d then some (t + (k : ℚ) * i) else none)
    ∧ (∀ (loops : List Loop) (n : ℕ),
      _get_timesteps loops n = (timestepsAux loops 0).take n
      ∧ (_get_timesteps loops n).length = min n (timestepsAux loops 0).length) := by
  refine ⟨?_, ?_, ?_, ?_⟩
  · intro l ls t h
    simp only [timestepsAux, h, if_true]
  · intro l ls t h
    simp only [timestepsAux, h, Bool.false_eq_true, if_false]
  · intro t d i hi k
    have hiff : (k < Int.toNat ⌈((t + d) - t) / i⌉) ↔ (t + (k : ℚ) * i < t + d) := by
      rw [Int.lt_toNat, Int.lt_ceil, show ((t + d) - t) = d by ring,
        Int.cast_natCast, lt_div_iff₀ hi]
      constructor <;> intro h <;> linarith
    simp only [arangeQ]
    rw [List.get?_eq_getElem?, List.getElem?_map]
    by_cases hk : k < Int.toNat ⌈((t + d) - t) / i⌉
    · rw [List.getElem?_range hk, if_pos (hiff.mp hk)]
      rfl
    · rw [List.getElem?_eq_none (by rw [List.length_range]; omega),
        if_neg (fun hc => hk (hiff.mpr hc))]
      rfl
  · intro loops n
    exact ⟨rfl, by rw [_get_timesteps, List.length_take]⟩

/-- Witness for C7: the second sample of `np.arange(0, 2, 1)` is `1`, and a
stimulation loop contributes nothing to the timesteps. -/
theorem C7_timesteps_witness :
    (arangeQ 0 (0 + 2) 1).get? 1 = some (0 + ((1 : ℕ) : ℚ) * 1)
    ∧ timestepsAux [⟨true, 5, 1⟩] 3 = timestepsAux [] 3 := by
  refine ⟨?_, C7_timesteps.1 ⟨true, 5, 1⟩ [] 3 rfl⟩
  rw [C7_timesteps.2.2.1 0 2 1 (by norm_num) 1, if_pos (by norm_num)]

end Frapalyzer
